import Mathlib

/-!
Shallow embedding of the indicator-computation engine of the market
research dashboard (src/app.py).  Prices and derived quantities are
modelled as rational numbers (exact arithmetic standing in for the
floating-point values of the source); derived series are lists aligned
with the input price series; missing values (pandas NaN) are
`Option.none`.  Quantities whose computation involves a square root
(annualization factors, rolling volatility, Bollinger band offsets) live
in `ℝ`.  The decimal literal 6.5 of the source is written 6.5 here as
well (it denotes 13/2 exactly, as the float 6.5 does).
-/

namespace FinDash

/-- Python `int()` applied to the nonnegative window sizes produced by the
interval calibrator (truncation toward zero; every calibrator window is
positive, so this is numerator-over-denominator floor division). -/
def pyInt (q : ℚ) : ℕ := q.num.toNat / q.den

/-- The intraday interval labels recognized by the calibrator functions
(app.py lines 40, 53, 64). -/
def intraday_labels : List String := ["1m", "5m", "15m", "30m", "1h"]

/-- The full recognized interval vocabulary of the calibrator. -/
def recognized_intervals : List String :=
  ["1m", "5m", "15m", "30m", "1h", "1d", "1wk", "1mo"]

/-- Embedding of `annualization_factor` (app.py lines 38-49): square-root
factor for volatility annualization. -/
noncomputable def annualization_factor (interval : String) : ℝ :=
  if interval ∈ intraday_labels then Real.sqrt (252 * 6.5)
  else if interval = "1d" then Real.sqrt 252
  else if interval = "1wk" then Real.sqrt 52
  else if interval = "1mo" then Real.sqrt 12
  else Real.sqrt 252

/-- Embedding of `moving_average_windows` (app.py lines 51-60): pair of
short-term and long-term window lengths (floats in the source, hence `ℚ`
here; the caller truncates them with `int()`). -/
def moving_average_windows (interval : String) : ℚ × ℚ :=
  if interval ∈ intraday_labels then (50 * 6.5, 200 * 6.5)
  else if interval = "1d" then (50, 200)
  else if interval = "1wk" then (10, 40)
  else (6, 12)

/-- Embedding of `bollinger_window` (app.py lines 62-71). -/
def bollinger_window (interval : String) : ℚ :=
  if interval ∈ intraday_labels then 20 * 6.5
  else if interval = "1d" then 20
  else if interval = "1wk" then 4
  else 6

/-- The short window as used at app.py lines 94-95: `int(short_window)`. -/
def short_window (interval : String) : ℕ := pyInt (moving_average_windows interval).1

/-- The long window as used at app.py line 96: `int(long_window)`. -/
def long_window (interval : String) : ℕ := pyInt (moving_average_windows interval).2

/-- The Bollinger window as used at app.py line 142: `int(bollinger_window(interval))`. -/
def bb_window (interval : String) : ℕ := pyInt (bollinger_window interval)

/-- Embedding of `Close.pct_change()` (app.py lines 91 and 223-224): the
first entry is missing (NaN), entry `i ≥ 1` holds `price[i]/price[i-1] - 1`. -/
def pct_change (xs : List ℚ) : List (Option ℚ) :=
  match xs with
  | [] => []
  | _ :: rest => none :: List.zipWith (fun prev cur => some (cur / prev - 1)) xs rest

/-- Trailing window of length (at most) `w` ending at index `i`: the last
`w` entries of the first `i + 1` entries. -/
def trailingWindow (w i : ℕ) (l : List α) : List α := (l.take (i + 1)).drop (i + 1 - w)

/-- Arithmetic mean of a list of rationals (pandas `mean` of a full window). -/
def listMean (l : List ℚ) : ℚ := l.sum / (l.length : ℚ)

/-- Sample variance (square of pandas `std` with its default `ddof = 1`)
of a list of rationals. -/
def sampleVar (l : List ℚ) : ℚ :=
  (l.map (fun x => (x - listMean l) ^ 2)).sum / ((l.length : ℚ) - 1)

/-- Embedding of `Close.rolling(w).mean()` (app.py lines 95-96, 143): mean
of the trailing `w` prices, missing (NaN) while fewer than `w` prices are
available — pandas' default `min_periods` equals the window size. -/
def rollingMean (w : ℕ) (xs : List ℚ) : List (Option ℚ) :=
  (List.range xs.length).map (fun i =>
    if w ≤ i + 1 then some (listMean (trailingWindow w i xs)) else none)

/-- Embedding of `Returns.rolling(w).std()` (app.py line 94) over the
returns series (which carries a missing first entry): the entry at `i` is
defined when the trailing window holds `w` entries, all non-missing
(pandas needs `min_periods = w` non-NaN observations), and `2 ≤ w` (with
one observation the `ddof = 1` sample deviation is 0/0, NaN; every window
the app passes is at least 6); it is then the sample standard deviation of
those `w` returns. -/
noncomputable def rollingStdOfReturns (w : ℕ) (rets : List (Option ℚ)) : List (Option ℝ) :=
  (List.range rets.length).map (fun i =>
    if 2 ≤ w ∧ w ≤ i + 1 ∧ (trailingWindow w i rets).all Option.isSome then
      some (Real.sqrt ((sampleVar ((trailingWindow w i rets).filterMap id) : ℚ) : ℝ))
    else none)

/-- Embedding of app.py line 94: `data['Returns'].rolling(window=int(short_window)).std()
* ann_factor` — annualized rolling volatility of the close-to-close returns. -/
noncomputable def rollingVolatility (interval : String) (close : List ℚ) : List (Option ℝ) :=
  (rollingStdOfReturns (short_window interval) (pct_change close)).map
    (fun o => o.map (fun s => s * annualization_factor interval))

/-- Embedding of app.py line 95: `data['MA_50'] = Close.rolling(int(short_window)).mean()`. -/
def dataMA50 (interval : String) (close : List ℚ) : List (Option ℚ) :=
  rollingMean (short_window interval) close

/-- Embedding of app.py line 96: `data['MA_200'] = Close.rolling(int(long_window)).mean()`. -/
def dataMA200 (interval : String) (close : List ℚ) : List (Option ℚ) :=
  rollingMean (long_window interval) close

/-- Embedding of the three `st.metric` scalars of app.py lines 109-111:
`Close.values[-1]`, `Rolling Volatility.values[-1]`, `Returns.values[-1]`.
Indexing `values[-1]` of an empty column is a fault (IndexError), hence
`none` when the series is empty; a NaN last value is displayed as NaN, not
a fault, hence the inner `Option`s pass through. -/
noncomputable def keyMarketIndicators (interval : String) (close : List ℚ) :
    Option (ℚ × Option ℝ × Option ℚ) :=
  match close.getLast?, (rollingVolatility interval close).getLast?,
      (pct_change close).getLast? with
  | some p, some v, some r => some (p, v, r)
  | _, _, _ => none

/-- Embedding of the Overview tab computation (app.py lines 91-111): the
engine runs the returns, rolling-volatility and moving-average modules on
whatever series retrieval produced — there is no emptiness or
malformedness check anywhere between `load_data` (line 31) and the
indicator computations — and then reads the latest-value metrics. -/
noncomputable def overviewTab (interval : String) (close : List ℚ) :
    (List (Option ℚ) × List (Option ℝ) × List (Option ℚ) × List (Option ℚ)) ×
      Option (ℚ × Option ℝ × Option ℚ) :=
  ((pct_change close, rollingVolatility interval close,
      dataMA50 interval close, dataMA200 interval close),
    keyMarketIndicators interval close)

/-! RSI (app.py lines 127-134). -/

/-- Embedding of `Close.diff()` (app.py line 128): missing at index 0,
`price[i] - price[i-1]` afterwards. -/
def priceDiffs (xs : List ℚ) : List (Option ℚ) :=
  match xs with
  | [] => []
  | _ :: rest => none :: List.zipWith (fun prev cur => some (cur - prev)) xs rest

/-- Embedding of `gain = price_diff.where(price_diff > 0, 0)` (app.py line
129): the NaN head fails the condition `NaN > 0` and is replaced by 0, as
is every nonpositive difference. -/
def gainSeries (xs : List ℚ) : List ℚ :=
  (priceDiffs xs).map (fun o =>
    match o with
    | some d => if 0 < d then d else 0
    | none => 0)

/-- Embedding of `loss = -price_diff.where(price_diff < 0, 0)` (app.py line
130): negation of the kept negative differences; the NaN head and
nonnegative differences give 0. -/
def lossSeries (xs : List ℚ) : List ℚ :=
  (priceDiffs xs).map (fun o =>
    match o with
    | some d => if d < 0 then -d else 0
    | none => 0)

/-- Running (numerator, denominator) pairs of the adjusted exponentially
weighted mean with decay weight `w`: `num_i = x_i + w * num_(i-1)`,
`den_i = 1 + w * den_(i-1)`, i.e. `num_i = sum of w^(i-j) * x_j` and
`den_i = sum of w^(i-j)` over `j ≤ i`. -/
def ewmAdjAux (w : ℚ) (acc : ℚ × ℚ) : List ℚ → List (ℚ × ℚ)
  | [] => []
  | x :: rest => (x + w * acc.1, 1 + w * acc.2) :: ewmAdjAux w (x + w * acc.1, 1 + w * acc.2) rest

/-- Embedding of `Series.ewm(com=c, ...).mean()` with the default
`adjust=True` (app.py lines 131-132): the weighted average with decay
weight `c/(c+1) = 1 - alpha`, `alpha = 1/(1+c)`.  The `min_periods`
masking is applied by the consumer `rsiList` (the gain/loss inputs carry
no NaN, so observation counts are plain index counts). -/
def ewmAdjMean (c : ℚ) (xs : List ℚ) : List ℚ :=
  (ewmAdjAux (c / (c + 1)) (0, 0) xs).map (fun p => p.1 / p.2)

/-- Embedding of `avg_gain` (app.py line 131) before `min_periods` masking. -/
def avg_gain (xs : List ℚ) : List ℚ := ewmAdjMean (14 - 1) (gainSeries xs)

/-- Embedding of `avg_loss` (app.py line 132) before `min_periods` masking. -/
def avg_loss (xs : List ℚ) : List ℚ := ewmAdjMean (14 - 1) (lossSeries xs)

/-- Value of one entry of the RSI series: finite, or NaN. -/
inductive RsiVal where
  | fin : ℚ → RsiVal
  | nan : RsiVal
deriving DecidableEq

/-- IEEE-754 semantics of `rs = g / l; rsi = 100 - 100 / (1 + rs)` (app.py
lines 133-134) on the nonnegative averaged gains `g` and losses `l` the
code feeds it: when `l = 0` and `g > 0` the ratio is +infinity and the
expression collapses to 100; when `l = 0 = g` the 0/0 division is NaN and
NaN propagates; otherwise everything is finite and exact. -/
def rsiVal (g l : ℚ) : RsiVal :=
  if l = 0 then (if g = 0 then RsiVal.nan else RsiVal.fin 100)
  else RsiVal.fin (100 - 100 / (1 + g / l))

/-- Embedding of `data["RSI"]` (app.py lines 127-134), with
`window_length = 14`: NaN until `min_periods = 14` observations have been
seen (pandas masks the first 13 entries of `avg_gain`/`avg_loss`, and NaN
propagates through `rs` and the final expression), then the value of
`100 - 100/(1 + avg_gain/avg_loss)`. -/
def rsiList (xs : List ℚ) : List RsiVal :=
  (List.range xs.length).map (fun i =>
    if 14 ≤ i + 1 then rsiVal ((avg_gain xs).getD i 0) ((avg_loss xs).getD i 0)
    else RsiVal.nan)

/-! Bollinger bands (app.py lines 142-145). -/

/-- Embedding of `data['MA_20']` (app.py line 143). -/
def dataMA20 (interval : String) (close : List ℚ) : List (Option ℚ) :=
  rollingMean (bb_window interval) close

/-- Embedding of `data['Upper_Band'] = MA_20 + Close.rolling(w).std() * 2`
(app.py line 144): defined where both the rolling mean (window full) and
the rolling standard deviation (window full and `2 ≤ w`; every window the
app passes is at least 4) are, NaN elsewhere. -/
noncomputable def dataUpperBand (interval : String) (close : List ℚ) : List (Option ℝ) :=
  (List.range close.length).map (fun i =>
    if 2 ≤ bb_window interval ∧ bb_window interval ≤ i + 1 then
      some ((listMean (trailingWindow (bb_window interval) i close) : ℝ) +
        Real.sqrt ((sampleVar (trailingWindow (bb_window interval) i close) : ℚ) : ℝ) * 2)
    else none)

/-- Embedding of `data['Lower_Band'] = MA_20 - Close.rolling(w).std() * 2`
(app.py line 145). -/
noncomputable def dataLowerBand (interval : String) (close : List ℚ) : List (Option ℝ) :=
  (List.range close.length).map (fun i =>
    if 2 ≤ bb_window interval ∧ bb_window interval ≤ i + 1 then
      some ((listMean (trailingWindow (bb_window interval) i close) : ℝ) -
        Real.sqrt ((sampleVar (trailingWindow (bb_window interval) i close) : ℚ) : ℝ) * 2)
    else none)

/-! MACD (app.py lines 171-175). -/

/-- Tail of the non-adjusted recursive EMA: each output is
`a * x + (1 - a) * previous`. -/
def ewmaRecAux (a prev : ℚ) : List ℚ → List ℚ
  | [] => []
  | x :: rest => (a * x + (1 - a) * prev) :: ewmaRecAux a (a * x + (1 - a) * prev) rest

/-- Embedding of `Series.ewm(span=s, adjust=False).mean()` with
`a = 2/(s+1)`: `y_0 = x_0`, `y_i = a * x_i + (1 - a) * y_(i-1)`. -/
def ewmaRec (a : ℚ) : List ℚ → List ℚ
  | [] => []
  | x :: rest => x :: ewmaRecAux a x rest

/-- Embedding of `short_runner = Close.ewm(span=12, adjust=False).mean()`
(app.py line 171); pandas derives `alpha = 2/(span+1)`. -/
def short_runner (close : List ℚ) : List ℚ := ewmaRec (2 / (12 + 1)) close

/-- Embedding of `long_runner = Close.ewm(span=26, adjust=False).mean()`
(app.py line 172). -/
def long_runner (close : List ℚ) : List ℚ := ewmaRec (2 / (26 + 1)) close

/-- Embedding of `data['MACD'] = short_runner - long_runner` (app.py line 173). -/
def dataMACD (close : List ℚ) : List ℚ :=
  List.zipWith (fun a b => a - b) (short_runner close) (long_runner close)

/-- Embedding of `data['Signal_Line'] = MACD.ewm(span=9, adjust=False).mean()`
(app.py line 174). -/
def dataSignalLine (close : List ℚ) : List ℚ := ewmaRec (2 / (9 + 1)) (dataMACD close)

/-- Embedding of `data['Histogram'] = MACD - Signal_Line` (app.py line 175). -/
def dataHistogram (close : List ℚ) : List ℚ :=
  List.zipWith (fun a b => a - b) (dataMACD close) (dataSignalLine close)

/-! Benchmark comparison (app.py lines 223-229).  Here the timestamp index
matters, so a price series is a list of (timestamp, close) pairs with
strictly increasing timestamps (the data-model invariant). -/

/-- Per-period returns of a timestamped series (`Close.pct_change()`,
app.py lines 223-224), keeping the index: missing at the first timestamp,
`cur/prev - 1` afterwards. -/
def returnsTS (s : List (ℕ × ℚ)) : List (ℕ × Option ℚ) :=
  match s with
  | [] => []
  | p :: rest => (p.1, none) ::
      List.zipWith (fun prev cur => (cur.1, some (cur.2 / prev.2 - 1))) s rest

/-- Index lookup in a timestamped series of optional values: `some v` when
the timestamp is present with stored value `v`, `none` when the timestamp
is absent from the index. -/
def lookupTS (t : ℕ) : List (ℕ × Option ℚ) → Option (Option ℚ)
  | [] => none
  | p :: rest => if t = p.1 then some p.2 else lookupTS t rest

/-- Whether the return series of `s` has a non-missing value at timestamp `t`. -/
def returnDefinedAt (t : ℕ) (s : List (ℕ × ℚ)) : Bool :=
  match lookupTS t (returnsTS s) with
  | some (some _) => true
  | _ => false

/-- Embedding of
`comparison = pd.DataFrame({target: Return, benchmark: Return}).dropna(); comparison = comparison * 100`
(app.py lines 227-229).  The DataFrame constructor aligns the two return
series on the union of their indices, padding either column with NaN at
timestamps absent from it; `dropna()` then deletes every row holding a
NaN, so exactly the timestamps present in both indices with both returns
non-missing survive, in index order — for series with strictly increasing
timestamps that is the target's index order restricted to the survivors,
as traversed here; finally both columns are scaled by 100. -/
def comparisonRows (tgt bm : List (ℕ × ℚ)) : List (ℕ × ℚ × ℚ) :=
  (returnsTS tgt).filterMap (fun p =>
    match p.2, lookupTS p.1 (returnsTS bm) with
    | some x, some (some y) => some (p.1, x * 100, y * 100)
    | _, _ => none)

/-! Generic indexing helper. -/

/-- Entry `i` of a series built by mapping over `List.range n`. -/
lemma getElem?_range_map {β : Type} (f : ℕ → β) (n i : ℕ) (h : i < n) :
    ((List.range n).map f)[i]? = some (f i) := by
  simp [List.getElem?_map, List.getElem?_range, h]

/-! C1: interval-calibrator fallback. -/

/-- C1 counterexample: the label "unknown" is outside the recognized
vocabulary, yet the moving-average windows (and the Bollinger window) it
gets are NOT those of "1d": the final `else` of `moving_average_windows`
and of `bollinger_window` is the monthly branch (6, 12 and 6), not the
daily one (50, 200 and 20). -/
theorem C1_counterexample :
    ("unknown" ∉ FinDash.recognized_intervals) ∧
    FinDash.moving_average_windows "unknown" ≠ FinDash.moving_average_windows "1d" ∧
    FinDash.bollinger_window "unknown" ≠ FinDash.bollinger_window "1d" := by
  refine ⟨by decide, ?_, ?_⟩ <;>
    simp +decide [FinDash.moving_average_windows, FinDash.bollinger_window,
      FinDash.intraday_labels, Prod.ext_iff]

/-- C1 (amended): an interval label outside the recognized vocabulary
falls back to the daily annualization factor sqrt 252, but to the
monthly/default window set: shortWindow 6, longWindow 12,
bollingerWindow 6 — not to the daily windows 50/200/20. -/
theorem C1_unrecognized_interval_fallback (s : String)
    (h : s ∉ FinDash.recognized_intervals) :
    FinDash.annualization_factor s = Real.sqrt 252 ∧
    FinDash.moving_average_windows s = (6, 12) ∧
    FinDash.bollinger_window s = 6 := by
  simp only [FinDash.recognized_intervals, List.mem_cons, List.not_mem_nil, or_false,
    not_or] at h
  obtain ⟨h1, h2, h3, h4, h5, h6, h7, h8⟩ := h
  have hm : s ∉ FinDash.intraday_labels := by
    simp only [FinDash.intraday_labels, List.mem_cons, List.not_mem_nil, or_false, not_or]
    exact ⟨h1, h2, h3, h4, h5⟩
  simp [FinDash.annualization_factor, FinDash.moving_average_windows,
    FinDash.bollinger_window, hm, h6, h7, h8]

/-- C1 witness: the fallback evaluated at the concrete label "unknown". -/
theorem C1_unrecognized_interval_fallback_witness :
    FinDash.annualization_factor "unknown" = Real.sqrt 252 ∧
    FinDash.moving_average_windows "unknown" = (6, 12) ∧
    FinDash.bollinger_window "unknown" = 6 :=
  C1_unrecognized_interval_fallback "unknown" (by decide)

/-! C2: behaviour on an empty retrieved series. -/

/-- C2: the pipeline between `load_data` and the Overview metrics contains
no emptiness or retrieval-failure check: on an empty price series every
indicator module still runs (producing empty derived series), and the pass
ends in a fault (`none`, the IndexError of `values[-1]` on an empty
column) at the latest-value metrics instead of a distinct pre-computation
report. -/
theorem C2_empty_series_not_reported :
    FinDash.overviewTab "1h" [] = (([], [], [], []), none) := rfl

/-! C4: per-period returns. -/

/-- Entry `i + 1` of the returns series. -/
lemma pct_change_getElem_succ (xs : List ℚ) (i : ℕ) (h : i + 1 < xs.length) :
    (FinDash.pct_change xs)[i + 1]? =
      some (some (xs.getD (i + 1) 0 / xs.getD i 0 - 1)) := by
  induction xs generalizing i with
  | nil => simp at h
  | cons x rest ih =>
    cases rest with
    | nil => simp at h
    | cons y rest' =>
      cases i with
      | zero => simp [FinDash.pct_change]
      | succ k =>
        have h' : k + 1 < (y :: rest').length := by simpa using h
        have := ih k h'
        simpa [FinDash.pct_change] using this

/-- Length of the returns series. -/
lemma pct_change_length (xs : List ℚ) : (FinDash.pct_change xs).length = xs.length := by
  cases xs with
  | nil => rfl
  | cons x rest => simp [FinDash.pct_change]

/-- C4: the returns series has the length of the price series, a missing
value at index 0, and the value `price[i]/price[i-1] - 1` at every index
`i ≥ 1`. -/
theorem C4_returns (xs : List ℚ) (i : ℕ) (h1 : 1 ≤ i) (h2 : i < xs.length) :
    (FinDash.pct_change xs).length = xs.length ∧
    (FinDash.pct_change xs)[0]? = some none ∧
    (FinDash.pct_change xs)[i]? =
      some (some (xs.getD i 0 / xs.getD (i - 1) 0 - 1)) := by
  obtain ⟨k, rfl⟩ : ∃ k, i = k + 1 := ⟨i - 1, by omega⟩
  refine ⟨pct_change_length xs, ?_, ?_⟩
  · cases xs with
    | nil => simp at h2
    | cons x rest => simp [FinDash.pct_change]
  · simpa using pct_change_getElem_succ xs k h2

/-- C4 witness: the returns of the concrete price series [2, 3, 6]. -/
theorem C4_returns_witness :
    (FinDash.pct_change [2, 3, 6]).length = ([2, 3, 6] : List ℚ).length ∧
    (FinDash.pct_change [2, 3, 6])[0]? = some none ∧
    (FinDash.pct_change [2, 3, 6])[2]? =
      some (some (([2, 3, 6] : List ℚ).getD 2 0 / ([2, 3, 6] : List ℚ).getD 1 0 - 1)) :=
  C4_returns [2, 3, 6] 2 (by norm_num) (by norm_num)

/-! C5: MACD recurrences. -/

/-- Length of the non-adjusted EMA tail. -/
lemma ewmaRecAux_length (a p : ℚ) (xs : List ℚ) :
    (FinDash.ewmaRecAux a p xs).length = xs.length := by
  induction xs generalizing p with
  | nil => rfl
  | cons x rest ih => simp [FinDash.ewmaRecAux, ih]

/-- Length of the non-adjusted EMA. -/
lemma ewmaRec_length (a : ℚ) (xs : List ℚ) :
    (FinDash.ewmaRec a xs).length = xs.length := by
  cases xs <;> simp [FinDash.ewmaRec, ewmaRecAux_length]

/-- Recurrence of the non-adjusted EMA tail. -/
lemma ewmaRecAux_getD_succ (a : ℚ) (xs : List ℚ) (p : ℚ) (i : ℕ)
    (h : i + 1 < xs.length) :
    (FinDash.ewmaRecAux a p xs).getD (i + 1) 0 =
      a * xs.getD (i + 1) 0 + (1 - a) * (FinDash.ewmaRecAux a p xs).getD i 0 := by
  induction xs generalizing p i with
  | nil => simp at h
  | cons x rest ih =>
    cases i with
    | zero =>
      cases rest with
      | nil => simp at h
      | cons y rest' => simp [FinDash.ewmaRecAux]
    | succ k =>
      have h' : k + 1 < rest.length := by simpa using h
      simpa [FinDash.ewmaRecAux] using ih (a * x + (1 - a) * p) k h'

/-- First value of the non-adjusted EMA: the first observation. -/
lemma ewmaRec_getD_zero (a : ℚ) (xs : List ℚ) :
    (FinDash.ewmaRec a xs).getD 0 0 = xs.getD 0 0 := by
  cases xs <;> rfl

/-- Recurrence of the non-adjusted EMA. -/
lemma ewmaRec_getD_succ (a : ℚ) (xs : List ℚ) (i : ℕ) (h : i + 1 < xs.length) :
    (FinDash.ewmaRec a xs).getD (i + 1) 0 =
      a * xs.getD (i + 1) 0 + (1 - a) * (FinDash.ewmaRec a xs).getD i 0 := by
  cases xs with
  | nil => simp at h
  | cons x rest =>
    cases i with
    | zero =>
      cases rest with
      | nil => simp at h
      | cons y rest' => simp [FinDash.ewmaRec, FinDash.ewmaRecAux]
    | succ k =>
      have h' : k + 1 < rest.length := by simpa using h
      simpa [FinDash.ewmaRec] using ewmaRecAux_getD_succ a rest x k h'

/-- Lengths of the MACD line, signal line and histogram series. -/
lemma macd_lengths (xs : List ℚ) :
    (FinDash.dataMACD xs).length = xs.length ∧
    (FinDash.dataSignalLine xs).length = xs.length ∧
    (FinDash.dataHistogram xs).length = xs.length := by
  have h1 : (FinDash.dataMACD xs).length = xs.length := by
    simp [FinDash.dataMACD, ewmaRec_length, FinDash.short_runner, FinDash.long_runner]
  have h2 : (FinDash.dataSignalLine xs).length = xs.length := by
    simp [FinDash.dataSignalLine, ewmaRec_length, h1]
  refine ⟨h1, h2, ?_⟩
  simp [FinDash.dataHistogram, h1, h2]

/-- Pointwise value of a zipWith-subtraction of equal-length series. -/
lemma zipWith_sub_getD (l1 l2 : List ℚ) (i : ℕ) (h : i < l1.length)
    (hlen : l1.length = l2.length) :
    (List.zipWith (fun a b => a - b) l1 l2).getD i 0 = l1.getD i 0 - l2.getD i 0 := by
  have h2 : i < l2.length := hlen ▸ h
  have hz : i < (List.zipWith (fun a b : ℚ => a - b) l1 l2).length := by
    simp [List.length_zipWith]; omega
  rw [List.getD_eq_getElem _ _ hz, List.getD_eq_getElem _ _ h, List.getD_eq_getElem _ _ h2]
  rw [List.getElem_zipWith]

/-- C5: the fast and slow EMA runners obey the recursive non-adjusted
recurrence with alpha = 2/(span+1) from the very first index (no warm-up
gap: all MACD series have full length), the signal line is the same
recurrence over the MACD line, and the histogram is exactly
MACD - signal at every index. -/
theorem C5_macd (xs : List ℚ) (i : ℕ) (hi : i + 1 < xs.length) :
    (FinDash.dataMACD xs).length = xs.length ∧
    (FinDash.dataSignalLine xs).length = xs.length ∧
    (FinDash.dataHistogram xs).length = xs.length ∧
    (FinDash.short_runner xs).getD 0 0 = xs.getD 0 0 ∧
    (FinDash.long_runner xs).getD 0 0 = xs.getD 0 0 ∧
    (FinDash.dataSignalLine xs).getD 0 0 = (FinDash.dataMACD xs).getD 0 0 ∧
    (FinDash.short_runner xs).getD (i + 1) 0 =
      2 / (12 + 1) * xs.getD (i + 1) 0 +
        (1 - 2 / (12 + 1)) * (FinDash.short_runner xs).getD i 0 ∧
    (FinDash.long_runner xs).getD (i + 1) 0 =
      2 / (26 + 1) * xs.getD (i + 1) 0 +
        (1 - 2 / (26 + 1)) * (FinDash.long_runner xs).getD i 0 ∧
    (FinDash.dataSignalLine xs).getD (i + 1) 0 =
      2 / (9 + 1) * (FinDash.dataMACD xs).getD (i + 1) 0 +
        (1 - 2 / (9 + 1)) * (FinDash.dataSignalLine xs).getD i 0 ∧
    (FinDash.dataHistogram xs).getD i 0 =
      (FinDash.dataMACD xs).getD i 0 - (FinDash.dataSignalLine xs).getD i 0 ∧
    (FinDash.dataHistogram xs).getD (i + 1) 0 =
      (FinDash.dataMACD xs).getD (i + 1) 0 - (FinDash.dataSignalLine xs).getD (i + 1) 0 := by
  obtain ⟨hm, hs, hh⟩ := macd_lengths xs
  have hmacd : i + 1 < (FinDash.dataMACD xs).length := by omega
  refine ⟨hm, hs, hh, ewmaRec_getD_zero _ _, ewmaRec_getD_zero _ _,
    ewmaRec_getD_zero _ _, ewmaRec_getD_succ _ _ _ hi, ewmaRec_getD_succ _ _ _ hi,
    ewmaRec_getD_succ _ _ _ hmacd, ?_, ?_⟩
  · exact zipWith_sub_getD _ _ i (by omega) (by omega)
  · exact zipWith_sub_getD _ _ (i + 1) (by omega) (by omega)

/-- C5 witness: the MACD recurrences on the concrete price series [3, 1, 4]. -/
theorem C5_macd_witness :
    (FinDash.dataMACD [3, 1, 4]).length = ([3, 1, 4] : List ℚ).length ∧
    (FinDash.dataSignalLine [3, 1, 4]).length = ([3, 1, 4] : List ℚ).length ∧
    (FinDash.dataHistogram [3, 1, 4]).length = ([3, 1, 4] : List ℚ).length ∧
    (FinDash.short_runner [3, 1, 4]).getD 0 0 = ([3, 1, 4] : List ℚ).getD 0 0 ∧
    (FinDash.long_runner [3, 1, 4]).getD 0 0 = ([3, 1, 4] : List ℚ).getD 0 0 ∧
    (FinDash.dataSignalLine [3, 1, 4]).getD 0 0 = (FinDash.dataMACD [3, 1, 4]).getD 0 0 ∧
    (FinDash.short_runner [3, 1, 4]).getD 1 0 =
      2 / (12 + 1) * ([3, 1, 4] : List ℚ).getD 1 0 +
        (1 - 2 / (12 + 1)) * (FinDash.short_runner [3, 1, 4]).getD 0 0 ∧
    (FinDash.long_runner [3, 1, 4]).getD 1 0 =
      2 / (26 + 1) * ([3, 1, 4] : List ℚ).getD 1 0 +
        (1 - 2 / (26 + 1)) * (FinDash.long_runner [3, 1, 4]).getD 0 0 ∧
    (FinDash.dataSignalLine [3, 1, 4]).getD 1 0 =
      2 / (9 + 1) * (FinDash.dataMACD [3, 1, 4]).getD 1 0 +
        (1 - 2 / (9 + 1)) * (FinDash.dataSignalLine [3, 1, 4]).getD 0 0 ∧
    (FinDash.dataHistogram [3, 1, 4]).getD 0 0 =
      (FinDash.dataMACD [3, 1, 4]).getD 0 0 - (FinDash.dataSignalLine [3, 1, 4]).getD 0 0 ∧
    (FinDash.dataHistogram [3, 1, 4]).getD 1 0 =
      (FinDash.dataMACD [3, 1, 4]).getD 1 0 - (FinDash.dataSignalLine [3, 1, 4]).getD 1 0 :=
  C5_macd [3, 1, 4] 0 (by norm_num)

/-! C8: simple moving average. -/

/-- Entry `i` of a rolling mean, for `i` inside the series. -/
lemma rollingMean_getElem? (w : ℕ) (xs : List ℚ) (i : ℕ) (h : i < xs.length) :
    (FinDash.rollingMean w xs)[i]? =
      some (if w ≤ i + 1 then some (FinDash.listMean (FinDash.trailingWindow w i xs))
        else none) := by
  simp [FinDash.rollingMean, getElem?_range_map _ _ _ h]

/-- Length of a full trailing window. -/
lemma trailingWindow_length (w i : ℕ) (l : List α) (h : i < l.length) (hw : w ≤ i + 1) :
    (FinDash.trailingWindow w i l).length = w := by
  simp [FinDash.trailingWindow]
  omega

/-- C8: the simple moving average is missing exactly while fewer than `w`
prices are available, equals the arithmetic mean (sum over `w`) of the
trailing window of exactly `w` prices where defined, and hence is the
constant `c` everywhere it is defined over a constant series of value `c`. -/
theorem C8_sma (w : ℕ) (xs : List ℚ) (i : ℕ) (v c : ℚ) (n j : ℕ)
    (hw : 1 ≤ w) (hi : i < xs.length) (hj : j < n) (hjw : w ≤ j + 1) :
    ((FinDash.rollingMean w xs)[i]? = some none ↔ i + 1 < w) ∧
    ((FinDash.rollingMean w xs)[i]? = some (some v) →
      (FinDash.trailingWindow w i xs).length = w ∧
      v = (FinDash.trailingWindow w i xs).sum / (w : ℚ)) ∧
    (FinDash.rollingMean w (List.replicate n c))[j]? = some (some c) := by
  rw [rollingMean_getElem? w xs i hi]
  refine ⟨?_, ?_, ?_⟩
  · constructor
    · intro hsome
      by_contra hlt
      have hwle : w ≤ i + 1 := by omega
      rw [if_pos hwle] at hsome
      simp at hsome
    · intro hlt
      rw [if_neg (by omega)]
  · intro hsome
    by_cases hwle : w ≤ i + 1
    · rw [if_pos hwle] at hsome
      have hv : FinDash.listMean (FinDash.trailingWindow w i xs) = v := by
        simpa using hsome
      have hlen := trailingWindow_length w i xs hi hwle
      refine ⟨hlen, ?_⟩
      rw [← hv, FinDash.listMean, hlen]
    · rw [if_neg hwle] at hsome
      simp at hsome
  · have hjn : j < (List.replicate n c).length := by simpa using hj
    rw [rollingMean_getElem? w _ j hjn, if_pos hjw]
    have hwin : FinDash.trailingWindow w j (List.replicate n c) = List.replicate w c := by
      rw [FinDash.trailingWindow, List.take_replicate, List.drop_replicate]
      congr 1
      omega
    rw [hwin]
    have hw0 : (w : ℚ) ≠ 0 := Nat.cast_ne_zero.mpr (by omega)
    have : FinDash.listMean (List.replicate w c) = c := by
      rw [FinDash.listMean]
      simp [List.sum_replicate]
      exact mul_div_cancel_left₀ c hw0
    rw [this]

/-- C8 witness: window 3 over the concrete series [100, 102, 101, 105, 103]
(defined from index 2 with mean 101 there) and over a constant series of
three values 50. -/
theorem C8_sma_witness :
    ((FinDash.rollingMean 3 [100, 102, 101, 105, 103])[2]? = some none ↔ 2 + 1 < 3) ∧
    ((FinDash.trailingWindow 3 2 ([100, 102, 101, 105, 103] : List ℚ)).length = 3 ∧
      (101 : ℚ) = (FinDash.trailingWindow 3 2 ([100, 102, 101, 105, 103] : List ℚ)).sum / (3 : ℚ)) ∧
    (FinDash.rollingMean 3 (List.replicate 3 (50 : ℚ)))[2]? = some (some 50) := by
  have h := C8_sma 3 [100, 102, 101, 105, 103] 2 101 50 3 2
    (by norm_num) (by norm_num) (by norm_num) (by norm_num)
  refine ⟨h.1, h.2.1 ?_, h.2.2⟩
  rw [rollingMean_getElem? 3 _ 2 (by norm_num), if_pos (by norm_num)]
  norm_num [FinDash.trailingWindow, FinDash.listMean]

/-! C3 and C10: RSI. -/

/-- Every entry of the gain series is nonnegative. -/
lemma gainSeries_nonneg (xs : List ℚ) : ∀ g ∈ FinDash.gainSeries xs, 0 ≤ g := by
  intro g hg
  simp only [FinDash.gainSeries, List.mem_map] at hg
  obtain ⟨o, _, rfl⟩ := hg
  cases o with
  | none => simp
  | some d =>
    by_cases hd : 0 < d
    · simp [hd]
      linarith
    · simp [hd]

/-- Every entry of the loss series is nonnegative. -/
lemma lossSeries_nonneg (xs : List ℚ) : ∀ g ∈ FinDash.lossSeries xs, 0 ≤ g := by
  intro g hg
  simp only [FinDash.lossSeries, List.mem_map] at hg
  obtain ⟨o, _, rfl⟩ := hg
  cases o with
  | none => simp
  | some d =>
    by_cases hd : d < 0
    · simp [hd]
      linarith
    · simp [hd]

/-- Numerators of the adjusted EWM pairs stay nonnegative on nonnegative
inputs. -/
lemma ewmAdjAux_fst_nonneg (w : ℚ) (hw : 0 ≤ w) (xs : List ℚ)
    (hxs : ∀ x ∈ xs, 0 ≤ x) (acc : ℚ × ℚ) (hacc : 0 ≤ acc.1) :
    ∀ p ∈ FinDash.ewmAdjAux w acc xs, 0 ≤ p.1 := by
  induction xs generalizing acc with
  | nil => simp [FinDash.ewmAdjAux]
  | cons x rest ih =>
    intro p hp
    have hx : 0 ≤ x := hxs x (by simp)
    have hstep : 0 ≤ x + w * acc.1 := by positivity
    simp only [FinDash.ewmAdjAux, List.mem_cons] at hp
    rcases hp with rfl | hp
    · exact hstep
    · exact ih (fun y hy => hxs y (by simp [hy])) _ hstep p hp

/-- Denominators of the adjusted EWM pairs are positive. -/
lemma ewmAdjAux_snd_pos (w : ℚ) (hw : 0 ≤ w) (xs : List ℚ) (acc : ℚ × ℚ)
    (hacc : 0 ≤ acc.2) : ∀ p ∈ FinDash.ewmAdjAux w acc xs, 0 < p.2 := by
  induction xs generalizing acc with
  | nil => simp [FinDash.ewmAdjAux]
  | cons x rest ih =>
    intro p hp
    have hstep : (0:ℚ) < 1 + w * acc.2 := by positivity
    simp only [FinDash.ewmAdjAux, List.mem_cons] at hp
    rcases hp with rfl | hp
    · exact hstep
    · exact ih _ hstep.le p hp

/-- Every entry (read with default 0) of an adjusted EWM mean of a
nonnegative series is nonnegative. -/
lemma ewmAdjMean_mem_nonneg (c : ℚ) (hc : 0 ≤ c) (xs : List ℚ)
    (hxs : ∀ x ∈ xs, 0 ≤ x) : ∀ q ∈ FinDash.ewmAdjMean c xs, 0 ≤ q := by
  intro q hq
  have hw : 0 ≤ c / (c + 1) := by positivity
  simp only [FinDash.ewmAdjMean, List.mem_map] at hq
  obtain ⟨p, hp, rfl⟩ := hq
  exact div_nonneg
    (ewmAdjAux_fst_nonneg _ hw xs hxs (0, 0) le_rfl p hp)
    (ewmAdjAux_snd_pos _ hw xs (0, 0) le_rfl p hp).le

/-- Every entry (read with default 0) of an adjusted EWM mean of a
nonnegative series is nonnegative. -/
lemma ewmAdjMean_getD_nonneg (c : ℚ) (hc : 0 ≤ c) (xs : List ℚ)
    (hxs : ∀ x ∈ xs, 0 ≤ x) (i : ℕ) : 0 ≤ (FinDash.ewmAdjMean c xs).getD i 0 := by
  by_cases h : i < (FinDash.ewmAdjMean c xs).length
  · rw [List.getD_eq_getElem _ _ h]
    exact ewmAdjMean_mem_nonneg c hc xs hxs _ (List.getElem_mem h)
  · rw [List.getD_eq_default _ _ (by omega)]

/-- The averaged gain at any index is nonnegative. -/
lemma avg_gain_getD_nonneg (xs : List ℚ) (i : ℕ) :
    0 ≤ (FinDash.avg_gain xs).getD i 0 :=
  ewmAdjMean_getD_nonneg _ (by norm_num) _ (gainSeries_nonneg xs) i

/-- The averaged loss at any index is nonnegative. -/
lemma avg_loss_getD_nonneg (xs : List ℚ) (i : ℕ) :
    0 ≤ (FinDash.avg_loss xs).getD i 0 :=
  ewmAdjMean_getD_nonneg _ (by norm_num) _ (lossSeries_nonneg xs) i

/-- Entry `i` of the RSI series, for `i` inside the series. -/
lemma rsiList_getElem? (xs : List ℚ) (i : ℕ) (h : i < xs.length) :
    (FinDash.rsiList xs)[i]? =
      some (if 14 ≤ i + 1 then
        FinDash.rsiVal ((FinDash.avg_gain xs).getD i 0) ((FinDash.avg_loss xs).getD i 0)
      else FinDash.RsiVal.nan) := by
  simp [FinDash.rsiList, getElem?_range_map _ _ _ h]

/-- The RSI series has the length of the price series. -/
lemma rsiList_length (xs : List ℚ) : (FinDash.rsiList xs).length = xs.length := by
  simp [FinDash.rsiList]

/-- On nonnegative averaged gain and loss, an RSI entry is either NaN or a
finite value between 0 and 100. -/
lemma rsiVal_cases (g l : ℚ) (hg : 0 ≤ g) (hl : 0 ≤ l) :
    FinDash.rsiVal g l = FinDash.RsiVal.nan ∨
    ∃ q, FinDash.rsiVal g l = FinDash.RsiVal.fin q ∧ 0 ≤ q ∧ q ≤ 100 := by
  rw [FinDash.rsiVal]
  by_cases h0 : l = 0
  · rw [if_pos h0]
    by_cases hg0 : g = 0
    · left
      rw [if_pos hg0]
    · right
      exact ⟨100, by rw [if_neg hg0], by norm_num, by norm_num⟩
  · right
    have hlpos : 0 < l := lt_of_le_of_ne hl (Ne.symm h0)
    have hr : 0 ≤ g / l := div_nonneg hg hl
    have hden : (1:ℚ) ≤ 1 + g / l := by linarith
    have hfrac_pos : 0 < 100 / (1 + g / l) := by positivity
    have hfrac_le : 100 / (1 + g / l) ≤ 100 := by
      calc 100 / (1 + g / l) ≤ 100 / 1 := by
            apply div_le_div_of_nonneg_left (by norm_num) (by norm_num) hden
        _ = 100 := by norm_num
  -- wait: div_le_div_of_nonneg_left signature
    refine ⟨100 - 100 / (1 + g / l), by rw [if_neg h0], by linarith, by linarith⟩

/-- C3: wherever the RSI is a finite value it lies in [0, 100]; and at any
in-range index past the warm-up where the averaged loss is 0 and the
averaged gain is positive, the RSI is exactly 100 (the embedded IEEE
division semantics produce 100 there, not NaN). -/
theorem C3_rsi (xs : List ℚ) (i : ℕ) (x : ℚ) :
    ((FinDash.rsiList xs)[i]? = some (FinDash.RsiVal.fin x) → 0 ≤ x ∧ x ≤ 100) ∧
    (i < xs.length → 14 ≤ i + 1 → (FinDash.avg_loss xs).getD i 0 = 0 →
      0 < (FinDash.avg_gain xs).getD i 0 →
      (FinDash.rsiList xs)[i]? = some (FinDash.RsiVal.fin 100)) := by
  constructor
  · intro hfin
    have hi : i < xs.length := by
      by_contra hge
      rw [List.getElem?_eq_none (by rw [rsiList_length]; omega)] at hfin
      exact Option.noConfusion hfin
    rw [rsiList_getElem? xs i hi] at hfin
    by_cases h14 : 14 ≤ i + 1
    · rw [if_pos h14] at hfin
      have := rsiVal_cases _ _ (avg_gain_getD_nonneg xs i) (avg_loss_getD_nonneg xs i)
      rcases this with hnan | ⟨q, hq, hq0, hq100⟩
      · rw [hnan] at hfin
        simp at hfin
      · rw [hq] at hfin
        have : q = x := by
          injection hfin with h
          injection h
        subst this
        exact ⟨hq0, hq100⟩
    · rw [if_neg h14] at hfin
      simp at hfin
  · intro hi h14 hloss hgain
    rw [rsiList_getElem? xs i hi, if_pos h14, FinDash.rsiVal, if_pos hloss,
      if_neg (by linarith)]

/-- C3 witness: on the strictly increasing 14-value series 1..14 the
averaged loss at index 13 is 0 and the averaged gain is positive, so the
RSI there is the finite value 100, which the range part of the theorem
then brackets into [0, 100]. -/
theorem C3_rsi_witness :
    (FinDash.rsiList [1, 2, 3, 4, 5, 6, 7, 8, 9, 10, 11, 12, 13, 14])[13]? =
      some (FinDash.RsiVal.fin 100) ∧ (0 ≤ (100:ℚ) ∧ (100:ℚ) ≤ 100) := by
  have h2 := (C3_rsi [1, 2, 3, 4, 5, 6, 7, 8, 9, 10, 11, 12, 13, 14] 13 100).2
    (by norm_num) (by norm_num)
    (by norm_num [FinDash.avg_loss, FinDash.lossSeries, FinDash.priceDiffs,
      FinDash.ewmAdjMean, FinDash.ewmAdjAux])
    (by norm_num [FinDash.avg_gain, FinDash.gainSeries, FinDash.priceDiffs,
      FinDash.ewmAdjMean, FinDash.ewmAdjAux])
  exact ⟨h2, (C3_rsi [1, 2, 3, 4, 5, 6, 7, 8, 9, 10, 11, 12, 13, 14] 13 100).1 h2⟩

/-- C10: at an in-range index past the warm-up where both the averaged
gain and the averaged loss are 0 (for example constant prices), the RSI
entry is the propagated NaN of the 0/0 ratio — missing, and in particular
not the finite value 100, 50 or 0. -/
theorem C10_rsi_flat (xs : List ℚ) (i : ℕ) (h1 : i < xs.length) (h2 : 14 ≤ i + 1)
    (hg : (FinDash.avg_gain xs).getD i 0 = 0) (hl : (FinDash.avg_loss xs).getD i 0 = 0) :
    (FinDash.rsiList xs)[i]? = some FinDash.RsiVal.nan ∧
    FinDash.RsiVal.nan ≠ FinDash.RsiVal.fin 100 ∧
    FinDash.RsiVal.nan ≠ FinDash.RsiVal.fin 50 ∧
    FinDash.RsiVal.nan ≠ FinDash.RsiVal.fin 0 := by
  refine ⟨?_, by simp, by simp, by simp⟩
  rw [rsiList_getElem? xs i h1, if_pos h2, FinDash.rsiVal, if_pos hl, if_pos hg]

/-- C10 witness: a constant series of fourteen prices 5; at index 13 both
averages are 0 and the RSI entry is NaN. -/
theorem C10_rsi_flat_witness :
    (FinDash.rsiList (List.replicate 14 (5:ℚ)))[13]? = some FinDash.RsiVal.nan ∧
    FinDash.RsiVal.nan ≠ FinDash.RsiVal.fin 100 ∧
    FinDash.RsiVal.nan ≠ FinDash.RsiVal.fin 50 ∧
    FinDash.RsiVal.nan ≠ FinDash.RsiVal.fin 0 :=
  C10_rsi_flat (List.replicate 14 (5:ℚ)) 13 (by norm_num) (by norm_num)
    (by norm_num [FinDash.avg_gain, FinDash.gainSeries, FinDash.priceDiffs,
      FinDash.ewmAdjMean, FinDash.ewmAdjAux, List.replicate])
    (by norm_num [FinDash.avg_loss, FinDash.lossSeries, FinDash.priceDiffs,
      FinDash.ewmAdjMean, FinDash.ewmAdjAux, List.replicate])

/-! C6: Bollinger band ordering.  C9: rolling volatility. -/

/-- Concrete value of the Bollinger window for the monthly label. -/
lemma bb_window_1mo : FinDash.bb_window "1mo" = 6 := by
  rw [FinDash.bb_window, FinDash.bollinger_window]
  rw [if_neg (by decide), if_neg (by decide), if_neg (by decide)]
  norm_num [FinDash.pyInt]
  decide

/-- Concrete value of the short window for the monthly label. -/
lemma short_window_1mo : FinDash.short_window "1mo" = 6 := by
  rw [FinDash.short_window, FinDash.moving_average_windows]
  rw [if_neg (by decide), if_neg (by decide), if_neg (by decide)]
  norm_num [FinDash.pyInt]
  decide

/-- Every interval label yields a short window of at least 2 (the four
branches give 325, 50, 10 and 6). -/
lemma short_window_two_le (s : String) : 2 ≤ FinDash.short_window s := by
  rw [FinDash.short_window, FinDash.moving_average_windows]
  split_ifs <;> norm_num [FinDash.pyInt]

/-- Entry `i` of the upper Bollinger band, for `i` inside the series. -/
lemma dataUpperBand_getElem? (s : String) (xs : List ℚ) (i : ℕ) (h : i < xs.length) :
    (FinDash.dataUpperBand s xs)[i]? =
      some (if 2 ≤ FinDash.bb_window s ∧ FinDash.bb_window s ≤ i + 1 then
        some ((FinDash.listMean (FinDash.trailingWindow (FinDash.bb_window s) i xs) : ℝ) +
          Real.sqrt ((FinDash.sampleVar (FinDash.trailingWindow (FinDash.bb_window s) i xs) : ℚ) : ℝ) * 2)
      else none) := by
  rw [FinDash.dataUpperBand]
  exact getElem?_range_map _ _ _ h

/-- Entry `i` of the lower Bollinger band, for `i` inside the series. -/
lemma dataLowerBand_getElem? (s : String) (xs : List ℚ) (i : ℕ) (h : i < xs.length) :
    (FinDash.dataLowerBand s xs)[i]? =
      some (if 2 ≤ FinDash.bb_window s ∧ FinDash.bb_window s ≤ i + 1 then
        some ((FinDash.listMean (FinDash.trailingWindow (FinDash.bb_window s) i xs) : ℝ) -
          Real.sqrt ((FinDash.sampleVar (FinDash.trailingWindow (FinDash.bb_window s) i xs) : ℚ) : ℝ) * 2)
      else none) := by
  rw [FinDash.dataLowerBand]
  exact getElem?_range_map _ _ _ h

/-- C6: wherever the three Bollinger series are all defined, the lower
band is below the middle band (the 20-bar-equivalent moving average) and
the middle band is below the upper band: the bands are middle plus and
minus twice a (nonnegative) standard deviation. -/
theorem C6_bollinger (s : String) (xs : List ℚ) (i : ℕ) (lo : ℝ) (mi : ℚ) (up : ℝ)
    (hl : (FinDash.dataLowerBand s xs)[i]? = some (some lo))
    (hm : (FinDash.dataMA20 s xs)[i]? = some (some mi))
    (hu : (FinDash.dataUpperBand s xs)[i]? = some (some up)) :
    lo ≤ (mi : ℝ) ∧ (mi : ℝ) ≤ up := by
  have hi : i < xs.length := by
    by_contra hge
    rw [List.getElem?_eq_none (by simp [FinDash.dataUpperBand]; omega)] at hu
    exact Option.noConfusion hu
  rw [dataUpperBand_getElem? s xs i hi] at hu
  rw [dataLowerBand_getElem? s xs i hi] at hl
  rw [FinDash.dataMA20, rollingMean_getElem? _ _ _ hi] at hm
  by_cases hc : 2 ≤ FinDash.bb_window s ∧ FinDash.bb_window s ≤ i + 1
  · rw [if_pos hc] at hu hl
    rw [if_pos hc.2] at hm
    have hup : (FinDash.listMean (FinDash.trailingWindow (FinDash.bb_window s) i xs) : ℝ) +
        Real.sqrt ((FinDash.sampleVar (FinDash.trailingWindow (FinDash.bb_window s) i xs) : ℚ) : ℝ) * 2 = up := by
      simpa using hu
    have hlo : (FinDash.listMean (FinDash.trailingWindow (FinDash.bb_window s) i xs) : ℝ) -
        Real.sqrt ((FinDash.sampleVar (FinDash.trailingWindow (FinDash.bb_window s) i xs) : ℚ) : ℝ) * 2 = lo := by
      simpa using hl
    have hmi : FinDash.listMean (FinDash.trailingWindow (FinDash.bb_window s) i xs) = mi := by
      simpa using hm
    have hs : 0 ≤ Real.sqrt ((FinDash.sampleVar (FinDash.trailingWindow (FinDash.bb_window s) i xs) : ℚ) : ℝ) :=
      Real.sqrt_nonneg _
    rw [← hup, ← hlo, ← hmi]
    constructor <;> nlinarith [hs]
  · rw [if_neg hc] at hu
    simp at hu

/-- C6 witness: six constant prices 50 with the monthly Bollinger window 6:
at index 5 all three series are defined and equal 50, and the ordering holds. -/
theorem C6_bollinger_witness :
    ((50 : ℚ) : ℝ) ≤ (((50 : ℚ)) : ℝ) ∧ (((50 : ℚ)) : ℝ) ≤ ((50 : ℚ) : ℝ) := by
  have hwin : FinDash.trailingWindow (FinDash.bb_window "1mo") 5 (List.replicate 6 (50:ℚ)) =
      List.replicate 6 (50:ℚ) := by
    rw [bb_window_1mo, FinDash.trailingWindow, List.take_replicate, List.drop_replicate]
    norm_num
  have hmean : FinDash.listMean (List.replicate 6 (50:ℚ)) = 50 := by
    rw [FinDash.listMean]
    simp [List.sum_replicate]
    norm_num
  have hvar : FinDash.sampleVar (List.replicate 6 (50:ℚ)) = 0 := by
    rw [FinDash.sampleVar, hmean]
    simp [List.map_replicate, List.sum_replicate]
  have hm : (FinDash.dataMA20 "1mo" (List.replicate 6 (50:ℚ)))[5]? = some (some 50) := by
    rw [FinDash.dataMA20, rollingMean_getElem? _ _ _ (by simp), if_pos (by rw [bb_window_1mo])]
    rw [hwin, hmean]
  have hcond : 2 ≤ FinDash.bb_window "1mo" ∧ FinDash.bb_window "1mo" ≤ 5 + 1 := by
    rw [bb_window_1mo]
    omega
  have hu : (FinDash.dataUpperBand "1mo" (List.replicate 6 (50:ℚ)))[5]? =
      some (some ((50 : ℚ) : ℝ)) := by
    rw [dataUpperBand_getElem? _ _ _ (by simp), if_pos hcond, hwin, hmean, hvar]
    norm_num
  have hl : (FinDash.dataLowerBand "1mo" (List.replicate 6 (50:ℚ)))[5]? =
      some (some ((50 : ℚ) : ℝ)) := by
    rw [dataLowerBand_getElem? _ _ _ (by simp), if_pos hcond, hwin, hmean, hvar]
    norm_num
  exact C6_bollinger "1mo" (List.replicate 6 (50:ℚ)) 5 ((50 : ℚ) : ℝ) 50 ((50 : ℚ) : ℝ) hl hm hu

/-- Length of a trailing window at an in-range index. -/
lemma trailingWindow_length_min (w i : ℕ) (l : List α) (h : i < l.length) :
    (FinDash.trailingWindow w i l).length = min w (i + 1) := by
  simp [FinDash.trailingWindow]
  omega

/-- Entry `i` of the rolling standard deviation of the returns series. -/
lemma rollingStdOfReturns_getElem? (w : ℕ) (rets : List (Option ℚ)) (i : ℕ)
    (h : i < rets.length) :
    (FinDash.rollingStdOfReturns w rets)[i]? =
      some (if 2 ≤ w ∧ w ≤ i + 1 ∧ (FinDash.trailingWindow w i rets).all Option.isSome then
        some (Real.sqrt ((FinDash.sampleVar ((FinDash.trailingWindow w i rets).filterMap id) : ℚ) : ℝ))
      else none) := by
  rw [FinDash.rollingStdOfReturns]
  exact getElem?_range_map _ _ _ h

/-- Entry `i` of the annualized rolling volatility. -/
lemma rollingVolatility_getElem? (s : String) (xs : List ℚ) (i : ℕ) (h : i < xs.length) :
    (FinDash.rollingVolatility s xs)[i]? =
      some (if 2 ≤ FinDash.short_window s ∧ FinDash.short_window s ≤ i + 1 ∧
          (FinDash.trailingWindow (FinDash.short_window s) i (FinDash.pct_change xs)).all
            Option.isSome then
        some (Real.sqrt ((FinDash.sampleVar ((FinDash.trailingWindow (FinDash.short_window s) i
            (FinDash.pct_change xs)).filterMap id) : ℚ) : ℝ) * FinDash.annualization_factor s)
      else none) := by
  rw [FinDash.rollingVolatility, List.getElem?_map,
    rollingStdOfReturns_getElem? _ _ _ (by rw [pct_change_length]; exact h)]
  split_ifs <;> simp

/-- C9: the rolling-volatility window is the calibrator's short window
(the same `int(short_window)` used for MA_50): the entry at index `i` is
missing exactly when the trailing short-window stretch of the returns
series contains fewer than shortWindow non-missing returns, and where
defined it equals the sample standard deviation of those returns times the
annualization factor. -/
theorem C9_volatility (s : String) (xs : List ℚ) (i : ℕ) (v : ℝ) (hi : i < xs.length) :
    ((FinDash.rollingVolatility s xs)[i]? = some none ↔
      (FinDash.trailingWindow (FinDash.short_window s) i (FinDash.pct_change xs)).countP
        Option.isSome < FinDash.short_window s) ∧
    ((FinDash.rollingVolatility s xs)[i]? = some (some v) →
      v = Real.sqrt ((FinDash.sampleVar ((FinDash.trailingWindow (FinDash.short_window s) i
          (FinDash.pct_change xs)).filterMap id) : ℚ) : ℝ) * FinDash.annualization_factor s) := by
  rw [rollingVolatility_getElem? s xs i hi]
  have h2w := short_window_two_le s
  have hretlen : i < (FinDash.pct_change xs).length := by rw [pct_change_length]; exact hi
  have hwlen := trailingWindow_length_min (FinDash.short_window s) i
    (FinDash.pct_change xs) hretlen
  constructor
  · constructor
    · intro hnone
      by_cases hc : 2 ≤ FinDash.short_window s ∧ FinDash.short_window s ≤ i + 1 ∧
          (FinDash.trailingWindow (FinDash.short_window s) i (FinDash.pct_change xs)).all
            Option.isSome
      · rw [if_pos hc] at hnone
        simp at hnone
      · rw [if_neg hc] at hnone
        push_neg at hc
        by_cases hwi : FinDash.short_window s ≤ i + 1
        · have hall := hc h2w hwi
          have hne : (FinDash.trailingWindow (FinDash.short_window s) i
              (FinDash.pct_change xs)).countP Option.isSome ≠
              (FinDash.trailingWindow (FinDash.short_window s) i
                (FinDash.pct_change xs)).length := by
            intro heq
            exact hall (by
              rw [List.all_eq_true]
              intro a ha
              exact List.countP_eq_length.mp heq a ha)
          have hle := List.countP_le_length (Option.isSome)
            (l := FinDash.trailingWindow (FinDash.short_window s) i (FinDash.pct_change xs))
          omega
        · have : (FinDash.trailingWindow (FinDash.short_window s) i
              (FinDash.pct_change xs)).length = i + 1 := by omega
          have hle := List.countP_le_length (Option.isSome)
            (l := FinDash.trailingWindow (FinDash.short_window s) i (FinDash.pct_change xs))
          omega
    · intro hcount
      rw [if_neg ?_]
      intro hc
      obtain ⟨hc2, hcw, hall⟩ := hc
      have : (FinDash.trailingWindow (FinDash.short_window s) i
          (FinDash.pct_change xs)).countP Option.isSome =
          (FinDash.trailingWindow (FinDash.short_window s) i
            (FinDash.pct_change xs)).length := by
        rw [List.countP_eq_length]
        intro a ha
        exact (List.all_eq_true.mp hall) a ha
      omega
  · intro hsome
    by_cases hc : 2 ≤ FinDash.short_window s ∧ FinDash.short_window s ≤ i + 1 ∧
        (FinDash.trailingWindow (FinDash.short_window s) i (FinDash.pct_change xs)).all
          Option.isSome
    · rw [if_pos hc] at hsome
      have := Option.some.inj (Option.some.inj hsome)
      exact this.symm
    · rw [if_neg hc] at hsome
      simp at hsome

/-- C9 witness: seven constant prices with the monthly short window 6 —
the returns series has a missing head and six zero returns, so the
trailing window at index 6 is fully populated and the defined-value
equation holds; the missing-iff-undercount equivalence is instantiated at
the same point. -/
theorem C9_volatility_witness :
    ((FinDash.rollingVolatility "1mo" [1, 1, 1, 1, 1, 1, 1])[6]? = some none ↔
      (FinDash.trailingWindow (FinDash.short_window "1mo") 6
        (FinDash.pct_change [1, 1, 1, 1, 1, 1, 1])).countP Option.isSome <
        FinDash.short_window "1mo") ∧
    Real.sqrt ((FinDash.sampleVar ((FinDash.trailingWindow (FinDash.short_window "1mo") 6
        (FinDash.pct_change [1, 1, 1, 1, 1, 1, 1])).filterMap id) : ℚ) : ℝ) *
        FinDash.annualization_factor "1mo" =
      Real.sqrt ((FinDash.sampleVar ((FinDash.trailingWindow (FinDash.short_window "1mo") 6
        (FinDash.pct_change [1, 1, 1, 1, 1, 1, 1])).filterMap id) : ℚ) : ℝ) *
        FinDash.annualization_factor "1mo" := by
  have h := C9_volatility "1mo" [1, 1, 1, 1, 1, 1, 1] 6
    (Real.sqrt ((FinDash.sampleVar ((FinDash.trailingWindow (FinDash.short_window "1mo") 6
        (FinDash.pct_change [1, 1, 1, 1, 1, 1, 1])).filterMap id) : ℚ) : ℝ) *
      FinDash.annualization_factor "1mo") (by norm_num)
  refine ⟨h.1, h.2 ?_⟩
  rw [rollingVolatility_getElem? _ _ _ (by norm_num), if_pos ?_]
  refine ⟨?_, ?_, ?_⟩
  · rw [short_window_1mo]
    omega
  · rw [short_window_1mo]
    omega
  · rw [short_window_1mo]
    have hrets : FinDash.pct_change [(1:ℚ), 1, 1, 1, 1, 1, 1] =
        [none, some 0, some 0, some 0, some 0, some 0, some 0] := by
      norm_num [FinDash.pct_change]
    rw [hrets]
    decide

/-! C7: benchmark return comparison. -/

/-- Index preservation of the pairwise-return zip. -/
lemma zipWith_ret_map_fst (s rest : List (ℕ × ℚ)) (h : rest.length ≤ s.length) :
    (List.zipWith (fun prev cur => (cur.1, some (cur.2 / prev.2 - 1))) s rest).map
      Prod.fst = rest.map Prod.fst := by
  induction s generalizing rest with
  | nil =>
    cases rest with
    | nil => simp
    | cons b r => simp at h
  | cons a s' ih =>
    cases rest with
    | nil => simp
    | cons b r' =>
      simp only [List.zipWith_cons_cons, List.map_cons]
      rw [ih r' (by simpa using Nat.le_of_succ_le_succ (by simpa using h))]

/-- The return series keeps the index of its price series. -/
lemma returnsTS_map_fst (s : List (ℕ × ℚ)) :
    (FinDash.returnsTS s).map Prod.fst = s.map Prod.fst := by
  cases s with
  | nil => rfl
  | cons p rest =>
    simp only [FinDash.returnsTS, List.map_cons]
    rw [zipWith_ret_map_fst (p :: rest) rest (by simp)]

/-- A filterMap keeps at most as many entries as satisfy any predicate
implied by producing a value. -/
lemma length_filterMap_le_countP {α β : Type} (f : α → Option β) (p : α → Bool)
    (l : List α) (h : ∀ a, (f a).isSome → p a) :
    (l.filterMap f).length ≤ l.countP p := by
  induction l with
  | nil => simp
  | cons a l ih =>
    rw [List.filterMap_cons, List.countP_cons]
    cases hfa : f a with
    | none =>
      refine le_trans ih ?_
      omega
    | some b =>
      have hpa : p a = true := h a (by rw [hfa]; rfl)
      simp only [List.length_cons, hpa, if_true]
      omega

/-- The non-missing entries of a return series number at most the length
of the price series minus one (the first return is always missing). -/
lemma countP_isSome_returnsTS_le (s : List (ℕ × ℚ)) :
    (FinDash.returnsTS s).countP (fun p => p.2.isSome) ≤ s.length - 1 := by
  cases s with
  | nil => simp [FinDash.returnsTS]
  | cons p rest =>
    simp only [FinDash.returnsTS, List.countP_cons, Option.isSome_none, Bool.false_eq_true,
      if_false, List.length_cons, Nat.add_sub_cancel]
    calc (List.zipWith (fun prev cur => (cur.1, some (cur.2 / prev.2 - 1)))
          (p :: rest) rest).countP (fun p => p.2.isSome) + 0
        ≤ (List.zipWith (fun prev cur => (cur.1, some (cur.2 / prev.2 - 1)))
            (p :: rest) rest).length := by
          rw [Nat.add_zero]
          exact List.countP_le_length _
      _ ≤ rest.length := by
          rw [List.length_zipWith]
          omega

/-- A timestamp looked up successfully is a member. -/
lemma mem_of_lookupTS (l : List (ℕ × Option ℚ)) (t : ℕ) (v : Option ℚ)
    (h : FinDash.lookupTS t l = some v) : (t, v) ∈ l := by
  induction l with
  | nil => simp [FinDash.lookupTS] at h
  | cons p rest ih =>
    simp only [FinDash.lookupTS] at h
    by_cases ht : t = p.1
    · rw [if_pos ht] at h
      have hv : p.2 = v := by injection h
      rw [ht, ← hv]
      exact List.mem_cons_self _ _
    · rw [if_neg ht] at h
      exact List.mem_cons_of_mem _ (ih h)

/-- Under a duplicate-free index, membership determines the lookup. -/
lemma lookupTS_eq_of_mem (l : List (ℕ × Option ℚ)) (hnd : (l.map Prod.fst).Nodup)
    (t : ℕ) (v : Option ℚ) (hm : (t, v) ∈ l) : FinDash.lookupTS t l = some v := by
  induction l with
  | nil => simp at hm
  | cons p rest ih =>
    rw [List.map_cons, List.nodup_cons] at hnd
    simp only [FinDash.lookupTS]
    rcases List.mem_cons.mp hm with heq | hmem
    · have h1 : t = p.1 := by rw [← heq]
      have h2 : v = p.2 := by rw [← heq]
      rw [if_pos h1, h2]
    · have ht : t ≠ p.1 := by
        intro hcontra
        apply hnd.1
        rw [← hcontra]
        exact List.mem_map_of_mem Prod.fst hmem
      rw [if_neg ht]
      exact ih hnd.2 hmem

/-- Destructing a successful row of the comparison filterMap. -/
lemma comparison_match_eq_some (bm : List (ℕ × ℚ)) (p : ℕ × Option ℚ) (q : ℕ × ℚ × ℚ)
    (h : (match p.2, FinDash.lookupTS p.1 (FinDash.returnsTS bm) with
      | some x, some (some y) => some (p.1, x * 100, y * 100)
      | _, _ => none) = some q) :
    ∃ rx ry, p.2 = some rx ∧
      FinDash.lookupTS p.1 (FinDash.returnsTS bm) = some (some ry) ∧
      q = (p.1, rx * 100, ry * 100) := by
  cases hp2 : p.2 with
  | none =>
    rw [hp2] at h
    simp at h
  | some rx =>
    cases hlk : FinDash.lookupTS p.1 (FinDash.returnsTS bm) with
    | none =>
      rw [hp2, hlk] at h
      simp at h
    | some o =>
      cases o with
      | none =>
        rw [hp2, hlk] at h
        simp at h
      | some ry =>
        rw [hp2, hlk] at h
        simp only [Option.some.injEq] at h
        exact ⟨rx, ry, rfl, rfl, h.symm⟩

/-- Index preservation of the comparison filterMap, as a sublist. -/
lemma map_fst_filterMap_sublist {γ : Type} (f : (ℕ × Option ℚ) → Option (ℕ × γ))
    (l : List (ℕ × Option ℚ)) (hf : ∀ p q, f p = some q → q.1 = p.1) :
    ((l.filterMap f).map Prod.fst).Sublist (l.map Prod.fst) := by
  induction l with
  | nil => simp
  | cons p rest ih =>
    rw [List.filterMap_cons]
    cases hfp : f p with
    | none =>
      simp only [List.map_cons]
      exact ih.trans (List.sublist_cons_self _ _)
    | some q =>
      have hq := hf p q hfp
      simp only [List.map_cons, hq]
      exact ih.cons₂ _

/-- The definedness predicate unfolded. -/
lemma returnDefinedAt_iff (t : ℕ) (s : List (ℕ × ℚ)) :
    FinDash.returnDefinedAt t s = true ↔
      ∃ rx, FinDash.lookupTS t (FinDash.returnsTS s) = some (some rx) := by
  rw [FinDash.returnDefinedAt]
  cases h : FinDash.lookupTS t (FinDash.returnsTS s) with
  | none => simp
  | some o => cases o <;> simp

/-- C7: the comparison table's index is exactly the set of timestamps at
which both return series are non-missing (no filled-in points); its length
is at most min of the two series lengths minus one; and each retained row
holds the two returns rescaled by 100. -/
theorem C7_benchmark (tgt bm : List (ℕ × ℚ)) (t : ℕ) (x y : ℚ)
    (hT : (tgt.map Prod.fst).Pairwise (· < ·))
    (_hB : (bm.map Prod.fst).Pairwise (· < ·)) :
    (t ∈ (FinDash.comparisonRows tgt bm).map Prod.fst ↔
      (FinDash.returnDefinedAt t tgt = true ∧ FinDash.returnDefinedAt t bm = true)) ∧
    (FinDash.comparisonRows tgt bm).length ≤ min tgt.length bm.length - 1 ∧
    ((t, x, y) ∈ FinDash.comparisonRows tgt bm →
      FinDash.lookupTS t (FinDash.returnsTS tgt) = some (some (x / 100)) ∧
      FinDash.lookupTS t (FinDash.returnsTS bm) = some (some (y / 100))) := by
  have hTnd : ((FinDash.returnsTS tgt).map Prod.fst).Nodup := by
    rw [returnsTS_map_fst]
    exact (hT.imp fun hab => ne_of_lt hab)
  refine ⟨⟨?_, ?_⟩, ?_, ?_⟩
  · intro hmem
    obtain ⟨r, hr, hrt⟩ := List.mem_map.mp hmem
    rw [FinDash.comparisonRows] at hr
    obtain ⟨p, hpmem, hfp⟩ := List.mem_filterMap.mp hr
    obtain ⟨rx, ry, hp2, hlk, hq⟩ := comparison_match_eq_some bm p r hfp
    have hpt : p.1 = t := by rw [hq] at hrt; exact hrt
    constructor
    · rw [returnDefinedAt_iff]
      refine ⟨rx, ?_⟩
      rw [← hpt]
      apply lookupTS_eq_of_mem _ hTnd
      rw [← hp2]
      exact hpmem
    · rw [returnDefinedAt_iff]
      exact ⟨ry, by rw [← hpt]; exact hlk⟩
  · intro hdef
    obtain ⟨rx, hlkT⟩ := (returnDefinedAt_iff t tgt).mp hdef.1
    obtain ⟨ry, hlkB⟩ := (returnDefinedAt_iff t bm).mp hdef.2
    have hmemT : (t, some rx) ∈ FinDash.returnsTS tgt := mem_of_lookupTS _ _ _ hlkT
    have hrow : (t, rx * 100, ry * 100) ∈ FinDash.comparisonRows tgt bm := by
      rw [FinDash.comparisonRows]
      apply List.mem_filterMap.mpr
      refine ⟨(t, some rx), hmemT, ?_⟩
      simp only [hlkB]
    simpa using List.mem_map_of_mem Prod.fst hrow
  · have h1 : (FinDash.comparisonRows tgt bm).length ≤ tgt.length - 1 := by
      rw [FinDash.comparisonRows]
      refine le_trans (length_filterMap_le_countP _ (fun p => p.2.isSome) _ ?_)
        (countP_isSome_returnsTS_le tgt)
      intro p hp
      cases hp2 : p.2 with
      | none =>
        rw [hp2] at hp
        simp at hp
      | some rx => simp [hp2]
    have h2 : (FinDash.comparisonRows tgt bm).length ≤ bm.length - 1 := by
      have hsub : ((FinDash.comparisonRows tgt bm).map Prod.fst).Sublist
          ((FinDash.returnsTS tgt).map Prod.fst) := by
        rw [FinDash.comparisonRows]
        apply map_fst_filterMap_sublist
        intro p q hfp
        obtain ⟨rx, ry, _, _, hq⟩ := comparison_match_eq_some bm p q hfp
        rw [hq]
      have hnd : ((FinDash.comparisonRows tgt bm).map Prod.fst).Nodup :=
        hsub.nodup hTnd
      have hsubset : ((FinDash.comparisonRows tgt bm).map Prod.fst) ⊆
          (FinDash.returnsTS bm).filterMap (fun p => p.2.map (fun _ => p.1)) := by
        intro u hu
        obtain ⟨r, hr, hru⟩ := List.mem_map.mp hu
        rw [FinDash.comparisonRows] at hr
        obtain ⟨p, hpmem, hfp⟩ := List.mem_filterMap.mp hr
        obtain ⟨rx, ry, hp2, hlk, hq⟩ := comparison_match_eq_some bm p r hfp
        have hpu : p.1 = u := by rw [hq] at hru; exact hru
        apply List.mem_filterMap.mpr
        refine ⟨(u, some ry), ?_, rfl⟩
        rw [← hpu]
        exact mem_of_lookupTS _ _ _ hlk
      have hlen1 : ((FinDash.comparisonRows tgt bm).map Prod.fst).length ≤
          ((FinDash.returnsTS bm).filterMap (fun p => p.2.map (fun _ => p.1))).length :=
        (hnd.subperm hsubset).length_le
      have hlen2 : ((FinDash.returnsTS bm).filterMap
          (fun p => p.2.map (fun _ => p.1))).length ≤
          (FinDash.returnsTS bm).countP (fun p => p.2.isSome) := by
        apply length_filterMap_le_countP
        intro p hp
        cases hp2 : p.2 with
        | none =>
          rw [hp2] at hp
          simp at hp
        | some rx => simp [hp2]
      have hlen3 := countP_isSome_returnsTS_le bm
      have hlen0 : ((FinDash.comparisonRows tgt bm).map Prod.fst).length =
          (FinDash.comparisonRows tgt bm).length := List.length_map _ _
      omega
    omega
  · intro hrow
    rw [FinDash.comparisonRows] at hrow
    obtain ⟨p, hpmem, hfp⟩ := List.mem_filterMap.mp hrow
    obtain ⟨rx, ry, hp2, hlk, hq⟩ := comparison_match_eq_some bm p (t, x, y) hfp
    have hpt : p.1 = t := by
      have := congrArg Prod.fst hq
      simpa using this.symm
    have hx : rx = x / 100 := by
      have : x = rx * 100 := by
        have := congrArg (fun r => r.2.1) hq
        simpa using this
      rw [this, mul_div_cancel_right₀ _ (by norm_num : (100:ℚ) ≠ 0)]
    have hy : ry = y / 100 := by
      have : y = ry * 100 := by
        have := congrArg (fun r => r.2.2) hq
        simpa using this
      rw [this, mul_div_cancel_right₀ _ (by norm_num : (100:ℚ) ≠ 0)]
    constructor
    · rw [← hpt, ← hx]
      apply lookupTS_eq_of_mem _ hTnd
      rw [← hp2]
      exact hpmem
    · rw [← hpt, ← hy]
      exact hlk

/-- C7 witness: target series at timestamps 0, 1, 2 and benchmark series
at timestamps 1, 2, 3; only timestamp 2 carries a non-missing return in
both, its row holds both returns times 100, and the table length 1 is
within the bound min(3, 3) - 1. -/
theorem C7_benchmark_witness :
    ((2 : ℕ) ∈ (FinDash.comparisonRows [(0, 1), (1, 2), (2, 4)]
        [(1, 1), (2, 2), (3, 3)]).map Prod.fst ↔
      (FinDash.returnDefinedAt 2 [(0, 1), (1, 2), (2, 4)] = true ∧
        FinDash.returnDefinedAt 2 [(1, 1), (2, 2), (3, 3)] = true)) ∧
    (FinDash.comparisonRows [(0, 1), (1, 2), (2, 4)] [(1, 1), (2, 2), (3, 3)]).length ≤
      min ([(0, 1), (1, 2), (2, 4)] : List (ℕ × ℚ)).length
        ([(1, 1), (2, 2), (3, 3)] : List (ℕ × ℚ)).length - 1 ∧
    (FinDash.lookupTS 2 (FinDash.returnsTS [(0, 1), (1, 2), (2, 4)]) =
        some (some ((100 : ℚ) / 100)) ∧
      FinDash.lookupTS 2 (FinDash.returnsTS [(1, 1), (2, 2), (3, 3)]) =
        some (some ((100 : ℚ) / 100))) := by
  have h := C7_benchmark [(0, 1), (1, 2), (2, 4)] [(1, 1), (2, 2), (3, 3)] 2 100 100
    (by norm_num [List.pairwise_cons]) (by norm_num [List.pairwise_cons])
  refine ⟨h.1, h.2.1, h.2.2 ?_⟩
  norm_num [FinDash.comparisonRows, FinDash.returnsTS, FinDash.lookupTS]

end FinDash
